import Mathlib

set_option maxRecDepth 40000

/-!
Verification of the "Who Dance Better" pairwise/battle annotation tool
(`src/CSVPairwiseDemo.tsx`), as a shallow embedding in Lean 4.

JavaScript strings are modelled as lists of UTF-16 code units (`List Nat`);
JavaScript numbers that only ever hold integer values are modelled as `Int`
(IEEE doubles are exact on the magnitudes reached here); bitwise int32
operations are modelled with explicit reduction modulo 2^32; `NaN` values
that arise from `%` with a zero modulus are modelled with `Option Int`;
fractional comparisons (`QC_OVERLAP_RATE`) use exact rationals, which agree
with the doubles the code compares (`k/10000` vs `0.5`).
-/

namespace WDB

/-! ### JS string model -/

/-- UTF-16 code units of a (BMP) string literal, matching JS `charCodeAt`. -/
def strCodes (s : String) : List Nat := s.toList.map Char.toNat

/-! ### djb2 hash (`hashStrDJB2`, source lines 105-109) -/

/-- JS `ToInt32`: reduce an integer modulo 2^32 into `[-2^31, 2^31)`. -/
def toInt32 (x : Int) : Int :=
  let m := x % 4294967296
  if m < 2147483648 then m else m - 4294967296

/-- One loop iteration of `hashStrDJB2`: `h = ((h << 5) + h) + c`.
JS `h << 5` coerces `h` to int32, shifts, and wraps the result to int32. -/
def hashStep (h : Int) (c : Nat) : Int :=
  toInt32 (toInt32 h * 32) + h + c

/-- `hashStrDJB2` (source lines 105-109): fold `hashStep` from 5381 over the
code units, then `h | 0` (i.e. `ToInt32`) at the end. -/
def hashStrDJB2 (s : List Nat) : Int :=
  toInt32 (s.foldl hashStep 5381)

/-- The spec's wording, as a separate definition to compare against:
accumulator starts at 5381, each step multiplies by 33 and adds the
character code, everything taken modulo 2^32, and the result is interpreted
as a signed 32-bit integer. -/
def djb2Spec (s : List Nat) : Int :=
  toInt32 (s.foldl (fun h c => (h * 33 + c) % 4294967296) 5381)

theorem toInt32_modeq (x : Int) : Int.ModEq 4294967296 (toInt32 x) x := by
  show toInt32 x % 4294967296 = x % 4294967296
  unfold toInt32
  have h1 : 0 ≤ x % 4294967296 := Int.emod_nonneg x (by norm_num)
  have h2 : x % 4294967296 < 4294967296 := Int.emod_lt_of_pos x (by norm_num)
  by_cases h : x % 4294967296 < 2147483648
  · simp only [h, if_true]
    exact Int.emod_emod_of_dvd x dvd_rfl
  · simp only [h, if_false]
    rw [Int.sub_emod, Int.emod_emod_of_dvd x dvd_rfl]
    omega

theorem toInt32_congr {x y : Int} (h : Int.ModEq 4294967296 x y) :
    toInt32 x = toInt32 y := by
  unfold toInt32
  rw [show x % 4294967296 = y % 4294967296 from h]

theorem modeq_emod_self (x : Int) :
    Int.ModEq 4294967296 x (x % 4294967296) :=
  (Int.emod_emod_of_dvd x dvd_rfl).symm

theorem foldl_hash_congr (s : List Nat) :
    ∀ a b : Int, Int.ModEq 4294967296 a b →
      Int.ModEq 4294967296 (s.foldl hashStep a)
        (s.foldl (fun h c => (h * 33 + c) % 4294967296) b) := by
  induction s with
  | nil => exact fun a b h => h
  | cons c t ih =>
      intro a b h
      simp only [List.foldl_cons]
      apply ih
      have h1 : Int.ModEq 4294967296 (toInt32 (toInt32 a * 32)) (a * 32) :=
        (toInt32_modeq _).trans ((toInt32_modeq a).mul_right 32)
      have h2 : Int.ModEq 4294967296 (hashStep a c) (a * 33 + c) := by
        unfold hashStep
        have e : a * 32 + a + (c : Int) = a * 33 + c := by ring
        rw [← e]
        exact (h1.add_right a).add_right c
      exact h2.trans (((h.mul_right 33).add_right (c : Int)).trans
        (modeq_emod_self _))

/-- C2: for every input string, `hashStrDJB2` computes the classic djb2
value: starting from 5381 the accumulator is multiplied by 33 and the
character code added for each character, the whole taken modulo 2^32 and
interpreted as a signed 32-bit integer. -/
theorem hashStrDJB2_is_djb2 (s : List Nat) : hashStrDJB2 s = djb2Spec s := by
  unfold hashStrDJB2 djb2Spec
  exact toInt32_congr (foldl_hash_congr s 5381 5381 (Int.ModEq.refl 5381))

/-! ### QC assignment (`qcAssigneesForBattle`, source lines 111-125) -/

def OWNER_COUNT : Int := 4

def QC_OVERLAP_RATE : ℚ := 1/2

/-- `mod` helper (source lines 111-113): `((n % m) + m) % m`.  For
`m > 0` JS's truncated `%` and Lean's euclidean `%` produce the same value
of the composite expression; `m = 0` (JS `NaN`) is modelled separately in
`qcAssigneesForBattleGen`. -/
def mod (n m : Int) : Int := ((n % m) + m) % m

/-- `primary` local of `qcAssigneesForBattle` (source line 117). -/
def qcPrimary (videoId salt : List Nat) : Int :=
  mod (hashStrDJB2 (strCodes "qc:pri:" ++ videoId ++ strCodes ":" ++ salt))
    OWNER_COUNT

/-- `secShift` local of `qcAssigneesForBattle` (source line 118): `1..3`. -/
def qcSecShift (videoId salt : List Nat) : Int :=
  1 + mod (hashStrDJB2 (strCodes "qc:sec:" ++ videoId ++ strCodes ":" ++ salt))
    (OWNER_COUNT - 1)

/-- `secondary` local of `qcAssigneesForBattle` (source line 119). -/
def qcSecondary (videoId salt : List Nat) : Int :=
  (qcPrimary videoId salt + qcSecShift videoId salt) % OWNER_COUNT

/-- `bucket` local of `qcAssigneesForBattle` (source line 121): a value in
`[0, 1)` with 4 fractional digits, exact as a rational. -/
def qcBucket (videoId salt : List Nat) : ℚ :=
  ((mod (hashStrDJB2
      (strCodes "qc:over:" ++ videoId ++ strCodes ":" ++ salt)) 10000 : Int)
    : ℚ) / 10000

/-- `qcAssigneesForBattle` (source lines 116-125), with the locals split
into the named definitions above. -/
def qcAssigneesForBattle (videoId salt : List Nat) : List Int :=
  if qcBucket videoId salt < QC_OVERLAP_RATE
  then [qcPrimary videoId salt, qcSecondary videoId salt]
  else [qcPrimary videoId salt]

theorem mod_nonneg_of_pos (n m : Int) (hm : 0 < m) : 0 ≤ mod n m :=
  Int.emod_nonneg _ (ne_of_gt hm)

theorem mod_lt_of_pos (n m : Int) (hm : 0 < m) : mod n m < m :=
  Int.emod_lt_of_pos _ hm

theorem qcPrimary_bounds (videoId salt : List Nat) :
    0 ≤ qcPrimary videoId salt ∧ qcPrimary videoId salt < 4 :=
  ⟨mod_nonneg_of_pos _ _ (by norm_num [OWNER_COUNT]),
    mod_lt_of_pos _ _ (by norm_num [OWNER_COUNT])⟩

theorem qcSecShift_bounds (videoId salt : List Nat) :
    1 ≤ qcSecShift videoId salt ∧ qcSecShift videoId salt ≤ 3 := by
  unfold qcSecShift
  have h1 := mod_nonneg_of_pos (hashStrDJB2
    (strCodes "qc:sec:" ++ videoId ++ strCodes ":" ++ salt))
    (OWNER_COUNT - 1) (by norm_num [OWNER_COUNT])
  have h2 := mod_lt_of_pos (hashStrDJB2
    (strCodes "qc:sec:" ++ videoId ++ strCodes ":" ++ salt))
    (OWNER_COUNT - 1) (by norm_num [OWNER_COUNT])
  unfold OWNER_COUNT at h1 h2 ⊢
  omega

theorem qcSecondary_bounds (videoId salt : List Nat) :
    0 ≤ qcSecondary videoId salt ∧ qcSecondary videoId salt < 4 := by
  unfold qcSecondary
  refine ⟨Int.emod_nonneg _ (by norm_num [OWNER_COUNT]), ?_⟩
  have := Int.emod_lt_of_pos (qcPrimary videoId salt + qcSecShift videoId salt)
    (show (0:Int) < OWNER_COUNT by norm_num [OWNER_COUNT])
  simpa [OWNER_COUNT] using this

theorem qcSecondary_ne_primary (videoId salt : List Nat) :
    qcSecondary videoId salt ≠ qcPrimary videoId salt := by
  have hp := qcPrimary_bounds videoId salt
  have hs := qcSecShift_bounds videoId salt
  unfold qcSecondary
  unfold OWNER_COUNT
  omega

/-- C1: `qcAssigneesForBattle` always returns one or two slots, each in
`[0, 4)`; the first is the primary slot; when two slots are returned the
secondary differs from the primary. -/
theorem qcAssigneesForBattle_spec (videoId salt : List Nat) :
    qcAssigneesForBattle videoId salt ≠ [] ∧
    ((qcAssigneesForBattle videoId salt).length = 1 ∨
      (qcAssigneesForBattle videoId salt).length = 2) ∧
    (∀ x ∈ qcAssigneesForBattle videoId salt, 0 ≤ x ∧ x < OWNER_COUNT) ∧
    (qcAssigneesForBattle videoId salt).head? = some (qcPrimary videoId salt) ∧
    (∀ p q, qcAssigneesForBattle videoId salt = [p, q] → q ≠ p) := by
  have hp := qcPrimary_bounds videoId salt
  have hsec := qcSecondary_bounds videoId salt
  have hne := qcSecondary_ne_primary videoId salt
  unfold qcAssigneesForBattle
  by_cases hb : qcBucket videoId salt < QC_OVERLAP_RATE
  · simp only [hb, if_true]
    refine ⟨by simp, Or.inr rfl, ?_, rfl, ?_⟩
    · intro x hx
      simp only [List.mem_cons, List.mem_singleton, List.not_mem_nil,
        or_false] at hx
      rcases hx with h | h <;> subst h <;> simp [OWNER_COUNT] <;> omega
    · intro p q hpq
      have h1 : p = qcPrimary videoId salt := by
        injection hpq with e1 e2
        exact e1.symm
      have h2 : q = qcSecondary videoId salt := by
        injection hpq with e1 e2
        injection e2 with e3 e4
        exact e3.symm
      subst h1; subst h2
      exact hne
  · simp only [hb, if_false]
    refine ⟨by simp, Or.inl rfl, ?_, rfl, ?_⟩
    · intro x hx
      simp only [List.mem_singleton] at hx
      subst hx
      simpa [OWNER_COUNT] using hp
    · intro p q hpq
      simp at hpq

/-- Witness for C1 at concrete inputs `videoId = "v"`, `salt = "s"`. -/
theorem qcAssigneesForBattle_spec_witness :
    qcAssigneesForBattle (strCodes "v") (strCodes "s") ≠ [] ∧
    ((qcAssigneesForBattle (strCodes "v") (strCodes "s")).length = 1 ∨
      (qcAssigneesForBattle (strCodes "v") (strCodes "s")).length = 2) ∧
    (∀ x ∈ qcAssigneesForBattle (strCodes "v") (strCodes "s"),
      0 ≤ x ∧ x < OWNER_COUNT) ∧
    (qcAssigneesForBattle (strCodes "v") (strCodes "s")).head? =
      some (qcPrimary (strCodes "v") (strCodes "s")) ∧
    (∀ p q, qcAssigneesForBattle (strCodes "v") (strCodes "s") = [p, q] →
      q ≠ p) :=
  qcAssigneesForBattle_spec (strCodes "v") (strCodes "s")

/-! ### Generalized QC assignment (pool size as a parameter)

The source fixes the pool size in the constant `OWNER_COUNT = 4` (line 32).
To examine the behaviour the spec requires for a pool size `N ≤ 1`, the same
algorithm is stated with the constant generalized to a parameter.  JS `NaN`
(produced by `%` with a zero modulus, which happens in the `secShift`
computation once `ownerCount - 1 = 0`) is modelled as `none`, and
propagates through the arithmetic exactly as `NaN` does. -/

/-- The `mod` helper under JS semantics including a zero modulus:
`n % 0` is `NaN`. -/
def jsModOpt (n m : Int) : Option Int :=
  if m = 0 then none else some (mod n m)

/-- `qcAssigneesForBattle` with `OWNER_COUNT` generalized to `ownerCount`;
list entries that would be `NaN` in JS are `none`. -/
def qcAssigneesForBattleGen (ownerCount : Int) (videoId salt : List Nat) :
    List (Option Int) :=
  let primary := jsModOpt (hashStrDJB2
    (strCodes "qc:pri:" ++ videoId ++ strCodes ":" ++ salt)) ownerCount
  let secShift := (jsModOpt (hashStrDJB2
    (strCodes "qc:sec:" ++ videoId ++ strCodes ":" ++ salt))
    (ownerCount - 1)).map (fun x => 1 + x)
  let secondary := match primary, secShift with
    | some p, some s =>
        if ownerCount = 0 then none else some ((p + s) % ownerCount)
    | _, _ => none
  if qcBucket videoId salt < QC_OVERLAP_RATE
  then [primary, secondary] else [primary]

/-- The generalized function at `ownerCount = 4` agrees with the concrete
`qcAssigneesForBattle` (no `NaN` ever arises at pool size 4). -/
theorem qcAssigneesForBattleGen_four (videoId salt : List Nat) :
    qcAssigneesForBattleGen 4 videoId salt =
      (qcAssigneesForBattle videoId salt).map some := by
  unfold qcAssigneesForBattleGen qcAssigneesForBattle jsModOpt
  by_cases hb : qcBucket videoId salt < QC_OVERLAP_RATE <;>
    simp [hb, qcPrimary, qcSecondary, qcSecShift, OWNER_COUNT, add_comm]

theorem qcBucket_vs_lt :
    qcBucket (strCodes "v") (strCodes "s") < QC_OVERLAP_RATE := by
  have h : mod (hashStrDJB2
      (strCodes "qc:over:" ++ strCodes "v" ++ strCodes ":" ++ strCodes "s"))
      10000 = 1868 := by decide
  unfold qcBucket QC_OVERLAP_RATE
  rw [h]
  norm_num

/-- C7 evaluation: with the pool size set to 1, at `videoId = "v"`,
`salt = "s"` the overlap hash selects a secondary slot and the function
returns `[0, NaN]` (the secondary is computed through `mod` by
`0 = ownerCount - 1`), not the single slot `[0]` the spec requires. -/
theorem qcAssigneesForBattleGen_one_not_degenerate :
    qcAssigneesForBattleGen 1 (strCodes "v") (strCodes "s") =
      [some 0, none] ∧
    qcAssigneesForBattleGen 1 (strCodes "v") (strCodes "s") ≠ [some 0] := by
  have hb := qcBucket_vs_lt
  have hlist : qcAssigneesForBattleGen 1 (strCodes "v") (strCodes "s") =
      [some 0, none] := by
    unfold qcAssigneesForBattleGen jsModOpt
    simp only [hb, if_true]
    norm_num [mod]
  exact ⟨hlist, by rw [hlist]; simp⟩

/-! ### Data model (source lines 20-79) -/

inductive Role where
  | gt
  | annotator
deriving DecidableEq, Repr

structure User where
  id : String
  name : String
  role : Role
  index : Int
deriving DecidableEq, Repr

/-- `Unit` record (source lines 43-51).  The `meta` field (free-form
playback metadata) is not modelled; no claim-relevant code reads it. -/
structure Unit where
  id : String
  dancer : Option String := none
  dancerId : Option String := none
  videoId : Option String := none
  src : String := ""
  rawSrc : Option String := none
deriving DecidableEq, Repr

structure DancerGroup where
  dancerKey : String
  units : List Unit
deriving DecidableEq, Repr

/-- `Battle` (source line 54): one videoId with exactly two dancer groups. -/
structure Battle where
  videoId : String
  dancers : DancerGroup × DancerGroup
deriving DecidableEq, Repr

structure WinnerDecision where
  winnerDancerKey : String
  decidedAt : Int
deriving DecidableEq, Repr

/-- JS object property read `m[k]` for a string-keyed record. -/
def jsGet {α : Type} (m : List (String × α)) (k : String) : Option α :=
  match m with
  | [] => none
  | (k₀, v) :: t => if k₀ = k then some v else jsGet t k

/-! ### Winner labeling panel progress (source lines 379-531)

The panel's claim-relevant state is the decision map (`map`), the battle
`cursor`, and the unsaved-changes flag (`dirty`). -/

structure PanelState where
  map : List (String × WinnerDecision)
  cursor : Int
  dirty : Bool
deriving DecidableEq, Repr

/-- A parsed progress file.  `payload` is the `gt`/`qc` field selected by
the panel's `storageKey`; `none` models a missing or non-object payload. -/
structure ProgressFile where
  format : String
  dataset : String
  user : User
  salt : String
  payload : Option (List (String × WinnerDecision))
  createdAt : Int
  updatedAt : Int
deriving DecidableEq, Repr

/-- `exportProgress` (source lines 494-511): builds the progress file from
the current map (`salt = dataset`, per line 402) and clears `dirty`. -/
def exportProgress (fileFormat dataset : String) (user : User) (now : Int)
    (st : PanelState) : ProgressFile × PanelState :=
  ({ format := fileFormat, dataset := dataset, user := user, salt := dataset,
     payload := some st.map, createdAt := now, updatedAt := now },
   { st with dirty := false })

/-- JS `Array.prototype.findIndex`: index of the first match, `-1` if none. -/
def jsFindIndex (battles : List Battle) (p : Battle → Bool) : Int :=
  match battles.findIdx? p with
  | some i => (i : Int)
  | none => -1

/-- `importProgress` (source lines 513-531).  The result is the new panel
state paired with the failure message, if any; a failure leaves the state
exactly as it was (in the source, the validation `throw`s before any
setter runs, and the `catch` only alerts). -/
def importProgress (battles : List Battle) (fileFormat dataset : String)
    (user : User) (st : PanelState) (json : Option ProgressFile) :
    PanelState × Option String :=
  match json with
  | none => (st, some "Invalid progress format.")
  | some j =>
    if j.format ≠ fileFormat then (st, some "Invalid progress format.")
    else if j.dataset ≠ dataset then
      (st, some "Progress file does not match this dataset.")
    else if j.user.id ≠ user.id then
      (st, some "Progress file belongs to a different account.")
    else match j.payload with
      | none => (st, some "Bad progress file payload.")
      | some incoming =>
          let firstUnlabeled := jsFindIndex battles
            (fun b => (jsGet incoming b.videoId).isNone)
          ({ map := incoming,
             cursor := if 0 ≤ firstUnlabeled then firstUnlabeled else 0,
             dirty := false },
           none)

/-- C4: a progress file whose format tag, dataset, or user id does not
match the active session is rejected with the specific reason for the
first failing check, and the panel state is unchanged. -/
theorem importProgress_rejects_mismatch (battles : List Battle)
    (fileFormat dataset : String) (user : User) (st : PanelState)
    (j : ProgressFile)
    (h : j.format ≠ fileFormat ∨ j.dataset ≠ dataset ∨ j.user.id ≠ user.id) :
    (importProgress battles fileFormat dataset user st (some j)).1 = st ∧
    (importProgress battles fileFormat dataset user st (some j)).2 =
      some (if j.format ≠ fileFormat then "Invalid progress format."
        else if j.dataset ≠ dataset then
          "Progress file does not match this dataset."
        else "Progress file belongs to a different account.") := by
  unfold importProgress
  by_cases h1 : j.format ≠ fileFormat
  · simp [h1]
  · by_cases h2 : j.dataset ≠ dataset
    · simp [h1, h2]
    · by_cases h3 : j.user.id ≠ user.id
      · simp [h1, h2, h3]
      · rcases h with h | h | h
        · exact absurd h h1
        · exact absurd h h2
        · exact absurd h h3

/-- Example annotator identity for concrete checks. -/
def exUserA : User := ⟨"A", "Annotator A", Role.annotator, 0⟩

/-- Example panel state for concrete checks. -/
def exState0 : PanelState := ⟨[], 0, false⟩

/-- Example progress file whose dataset does not match the session. -/
def exFileOtherDataset : ProgressFile :=
  { format := "qc-progress-v1"
    dataset := "other"
    user := exUserA
    salt := "other"
    payload := some []
    createdAt := 0
    updatedAt := 0 }

/-- Witness for C4: a file for the right format and user but a different
dataset is rejected with the dataset message; the state is untouched. -/
theorem importProgress_rejects_mismatch_witness :
    (exFileOtherDataset.format ≠ "qc-progress-v1" ∨
      exFileOtherDataset.dataset ≠ "ds" ∨
      exFileOtherDataset.user.id ≠ exUserA.id) ∧
    (importProgress [] "qc-progress-v1" "ds" exUserA exState0
      (some exFileOtherDataset)).1 = exState0 ∧
    (importProgress [] "qc-progress-v1" "ds" exUserA exState0
      (some exFileOtherDataset)).2 =
      some (if exFileOtherDataset.format ≠ "qc-progress-v1" then
          "Invalid progress format."
        else if exFileOtherDataset.dataset ≠ "ds" then
          "Progress file does not match this dataset."
        else "Progress file belongs to a different account.") :=
  ⟨by decide, importProgress_rejects_mismatch [] "qc-progress-v1" "ds"
    exUserA exState0 exFileOtherDataset (by decide)⟩

/-! ### Export-then-import round trip (C3) -/

def exUnit1 : Unit :=
  { id := "u1", dancerId := some "d1", videoId := some "v1", src := "u1" }

def exUnit2 : Unit :=
  { id := "u2", dancerId := some "d2", videoId := some "v1", src := "u2" }

def exUnit3 : Unit :=
  { id := "u3", dancerId := some "d3", videoId := some "v2", src := "u3" }

def exUnit4 : Unit :=
  { id := "u4", dancerId := some "d4", videoId := some "v2", src := "u4" }

/-- Example battles for concrete checks. -/
def exBattle1 : Battle := ⟨"v1", (⟨"d1", [exUnit1]⟩, ⟨"d2", [exUnit2]⟩)⟩

def exBattle2 : Battle := ⟨"v2", (⟨"d3", [exUnit3]⟩, ⟨"d4", [exUnit4]⟩)⟩

/-- C3 counterexample: an empty decision map exported while the cursor sits
at battle 1 imports successfully with the same map, but the cursor comes
back as 0 (the first unlabeled battle), not 1 — the cursor is not part of
the exported file. -/
theorem export_import_cursor_counterexample :
    (importProgress [exBattle1, exBattle2] "qc-progress-v1" "ds"
      exUserA ⟨[], 1, false⟩
      (some (exportProgress "qc-progress-v1" "ds"
        exUserA 0 ⟨[], 1, false⟩).1)).2 = none ∧
    (importProgress [exBattle1, exBattle2] "qc-progress-v1" "ds"
      exUserA ⟨[], 1, false⟩
      (some (exportProgress "qc-progress-v1" "ds"
        exUserA 0 ⟨[], 1, false⟩).1)).1.map
      = ([] : List (String × WinnerDecision)) ∧
    (importProgress [exBattle1, exBattle2] "qc-progress-v1" "ds"
      exUserA ⟨[], 1, false⟩
      (some (exportProgress "qc-progress-v1" "ds"
        exUserA 0 ⟨[], 1, false⟩).1)).1.cursor
      ≠ (⟨[], 1, false⟩ : PanelState).cursor := by
  refine ⟨by decide, by decide, by decide⟩

/-- C3 amended: importing a file just produced by `exportProgress` for the
same format, dataset and user always succeeds and restores the same
decision map with the dirty flag cleared; the cursor is recomputed as the
index of the first battle without a decision (0 when every battle is
decided), not restored from export time. -/
theorem export_import_roundtrip (battles : List Battle)
    (fileFormat dataset : String) (user : User) (st : PanelState)
    (now : Int) :
    (importProgress battles fileFormat dataset user st
      (some (exportProgress fileFormat dataset user now st).1)).2 = none ∧
    (importProgress battles fileFormat dataset user st
      (some (exportProgress fileFormat dataset user now st).1)).1.map
      = st.map ∧
    (importProgress battles fileFormat dataset user st
      (some (exportProgress fileFormat dataset user now st).1)).1.dirty
      = false ∧
    (importProgress battles fileFormat dataset user st
      (some (exportProgress fileFormat dataset user now st).1)).1.cursor
      = (match battles.findIdx?
          (fun b => (jsGet st.map b.videoId).isNone) with
        | some i => (i : Int)
        | none => 0) := by
  unfold exportProgress importProgress
  simp only [ne_eq, not_true_eq_false, if_false, ite_false, not_false_iff]
  simp only [jsFindIndex]
  cases hf : battles.findIdx? (fun b => (jsGet st.map b.videoId).isNone) with
  | none => simp
  | some i =>
      simp only []
      have : (0:Int) ≤ (i : Int) := Int.ofNat_nonneg i
      simp [this]

/-! ### Battle construction (source lines 1116-1150)

`battles` groups loaded units by `videoId` (skipping units whose `videoId`
is missing or empty), then inside each video by dancer key
(`dancerId || dancer || id`); a video resolves into a `Battle` exactly when
it has two dancer keys; otherwise it is dropped and counted invalid.
JS object keys enumerate in first-insertion order; both key lists are then
explicitly `sort()`ed, so only the set of keys matters downstream. -/

/-- JS truthiness of an optional string field: `undefined` and `""` are
falsy. -/
def truthyStr : Option String → Bool
  | none => false
  | some s => !(s == "")

/-- Dancer grouping key (source line 1132): `u.dancerId || u.dancer || u.id`. -/
def dancerKeyOf (u : Unit) : String :=
  if truthyStr u.dancerId then u.dancerId.getD ""
  else if truthyStr u.dancer then u.dancer.getD ""
  else u.id

/-- The `videoId` key of a unit that passed the truthiness filter. -/
def vidKey (u : Unit) : String := u.videoId.getD ""

/-- Keys of a JS object in first-insertion order: first occurrence of each
string, skipping strings already seen. -/
def dedupFirstAux (seen : List String) : List String → List String
  | [] => []
  | x :: xs =>
      if x ∈ seen then dedupFirstAux seen xs
      else x :: dedupFirstAux (x :: seen) xs

def dedupFirst (l : List String) : List String := dedupFirstAux [] l

/-- Lexicographic comparison of code-unit lists, matching how JS compares
strings (`<`, `>`, and the default `sort()` order). -/
def charListLe : List Char → List Char → Bool
  | [], _ => true
  | _ :: _, [] => false
  | a :: as, b :: bs =>
      if a.toNat < b.toNat then true
      else if b.toNat < a.toNat then false
      else charListLe as bs

/-- JS string comparison `a <= b` (lexicographic by code units). -/
def strLe (a b : String) : Bool := charListLe a.toList b.toList

theorem charListLe_total :
    ∀ l1 l2 : List Char, charListLe l1 l2 = true ∨ charListLe l2 l1 = true := by
  intro l1
  induction l1 with
  | nil => intro l2; left; rfl
  | cons a as ih =>
      intro l2
      cases l2 with
      | nil => right; rfl
      | cons b bs =>
          by_cases hab : a.toNat < b.toNat
          · left; simp [charListLe, hab]
          · by_cases hba : b.toNat < a.toNat
            · right; simp [charListLe, hba]
            · rcases ih bs with h | h
              · left; simp [charListLe, hab, hba, h]
              · right; simp [charListLe, hab, hba, h]

theorem charListLe_trans :
    ∀ l1 l2 l3 : List Char, charListLe l1 l2 = true →
      charListLe l2 l3 = true → charListLe l1 l3 = true := by
  intro l1
  induction l1 with
  | nil => intro l2 l3 _ _; rfl
  | cons a as ih =>
      intro l2 l3 h12 h23
      cases l2 with
      | nil => exact absurd h12 (by simp [charListLe])
      | cons b bs =>
          cases l3 with
          | nil => exact absurd h23 (by simp [charListLe])
          | cons c cs =>
              simp only [charListLe] at h12 h23 ⊢
              by_cases hab : a.toNat < b.toNat <;>
                by_cases hbc : b.toNat < c.toNat <;>
                by_cases hba : b.toNat < a.toNat <;>
                by_cases hcb : c.toNat < b.toNat <;>
                simp_all <;>
                first
                | omega
                | (have hac : a.toNat < c.toNat := by omega
                   simp [hac])
                | (have hac : ¬ a.toNat < c.toNat := by omega
                   have hca : ¬ c.toNat < a.toNat := by omega
                   simp [hac, hca]
                   first
                   | exact ih bs cs h12 h23
                   | exact ⟨by omega, ih bs cs h12 h23⟩)

instance : IsTotal String (fun a b => strLe a b = true) :=
  ⟨fun a b => charListLe_total a.toList b.toList⟩

instance : IsTrans String (fun a b => strLe a b = true) :=
  ⟨fun a b c => charListLe_trans a.toList b.toList c.toList⟩

/-- JS `Array.prototype.sort()` on string keys: sorts in lexicographic
code-unit order. -/
def sortStr (l : List String) : List String :=
  List.insertionSort (fun a b : String => strLe a b = true) l

/-- One video's entry of the grouping loop (source lines 1128-1146): group
`arr` by dancer key; a `Battle` results exactly when there are two keys,
its groups in sorted key order.  (The source checks `keys.length !== 2`
before sorting; sorting preserves length, so matching on the sorted list is
the same test.) -/
def mkBattle (vid : String) (arr : List Unit) : Option Battle :=
  match sortStr (dedupFirst (arr.map dancerKeyOf)) with
  | [k1, k2] =>
      some ⟨vid, (⟨k1, arr.filter (fun u => dancerKeyOf u = k1)⟩,
                  ⟨k2, arr.filter (fun u => dancerKeyOf u = k2)⟩)⟩
  | _ => none

/-- The `battles` memo (source lines 1116-1150): the built battle list and
the invalid-video count. -/
def buildBattles (units : List Unit) : List Battle × Nat :=
  let withVid := units.filter (fun u => truthyStr u.videoId)
  let vids := sortStr (dedupFirst (withVid.map vidKey))
  let results := vids.map
    (fun vid => mkBattle vid (withVid.filter (fun u => vidKey u = vid)))
  (results.filterMap id, results.countP Option.isNone)

/-- The units of one video id, as grouped by `buildBattles`. -/
def unitsOfVid (units : List Unit) (vid : String) : List Unit :=
  (units.filter (fun u => truthyStr u.videoId)).filter
    (fun u => vidKey u = vid)

/-- Number of dancer groups a video id resolves to. -/
def dancerGroupCount (units : List Unit) (vid : String) : Nat :=
  (dedupFirst ((unitsOfVid units vid).map dancerKeyOf)).length

theorem mem_dedupFirstAux (a : String) :
    ∀ (l : List String) (seen : List String),
      a ∈ dedupFirstAux seen l ↔ a ∈ l ∧ a ∉ seen := by
  intro l
  induction l with
  | nil => intro seen; simp [dedupFirstAux]
  | cons x xs ih =>
      intro seen
      by_cases hx : x ∈ seen
      · rw [show dedupFirstAux seen (x :: xs) = dedupFirstAux seen xs from by
          simp [dedupFirstAux, hx]]
        rw [ih seen]
        constructor
        · rintro ⟨h1, h2⟩
          exact ⟨List.mem_cons_of_mem x h1, h2⟩
        · rintro ⟨h1, h2⟩
          rcases List.mem_cons.mp h1 with h | h
          · exact absurd (h ▸ hx) h2
          · exact ⟨h, h2⟩
      · rw [show dedupFirstAux seen (x :: xs)
            = x :: dedupFirstAux (x :: seen) xs from by
          simp [dedupFirstAux, hx]]
        rw [List.mem_cons, ih (x :: seen)]
        constructor
        · rintro (h | ⟨h1, h2⟩)
          · exact ⟨h ▸ List.mem_cons_self x xs, h ▸ hx⟩
          · exact ⟨List.mem_cons_of_mem x h1,
              fun hs => h2 (List.mem_cons_of_mem x hs)⟩
        · rintro ⟨h1, h2⟩
          rcases List.mem_cons.mp h1 with h | h
          · exact Or.inl h
          · by_cases hax : a = x
            · exact Or.inl hax
            · exact Or.inr ⟨h, fun hs => by
                rcases List.mem_cons.mp hs with h3 | h3
                · exact hax h3
                · exact h2 h3⟩

theorem mem_dedupFirst (a : String) (l : List String) :
    a ∈ dedupFirst l ↔ a ∈ l := by
  unfold dedupFirst
  rw [mem_dedupFirstAux]
  simp

theorem dedupFirstAux_nodup :
    ∀ (l : List String) (seen : List String),
      (dedupFirstAux seen l).Nodup := by
  intro l
  induction l with
  | nil => intro seen; simp [dedupFirstAux]
  | cons x xs ih =>
      intro seen
      by_cases hx : x ∈ seen
      · simpa [dedupFirstAux, hx] using ih seen
      · rw [show dedupFirstAux seen (x :: xs)
            = x :: dedupFirstAux (x :: seen) xs from by
          simp [dedupFirstAux, hx]]
        refine List.Nodup.cons ?_ (ih (x :: seen))
        intro hmem
        exact ((mem_dedupFirstAux x xs (x :: seen)).mp hmem).2
          (List.mem_cons_self x seen)

theorem dedupFirst_nodup (l : List String) : (dedupFirst l).Nodup :=
  dedupFirstAux_nodup l []

theorem sortStr_perm (l : List String) : List.Perm (sortStr l) l :=
  List.perm_insertionSort _ l

theorem sortStr_sorted (l : List String) :
    (sortStr l).Sorted (fun a b : String => strLe a b = true) :=
  List.sorted_insertionSort _ l

/-- Shape of a successful `mkBattle`. -/
theorem mkBattle_some_elim (vid : String) (arr : List Unit) (b : Battle)
    (h : mkBattle vid arr = some b) :
    ∃ k1 k2, sortStr (dedupFirst (arr.map dancerKeyOf)) = [k1, k2] ∧
      b = ⟨vid, (⟨k1, arr.filter (fun u => dancerKeyOf u = k1)⟩,
                 ⟨k2, arr.filter (fun u => dancerKeyOf u = k2)⟩)⟩ := by
  unfold mkBattle at h
  split at h
  · next k1 k2 heq =>
      simp only [Option.some.injEq] at h
      exact ⟨k1, k2, heq, h.symm⟩
  · next => exact absurd h (by simp)

/-- A battle produced by `mkBattle` carries the requested video id, and its
two dancer keys are in strictly increasing lexicographic order. -/
theorem mkBattle_some_props (vid : String) (arr : List Unit) (b : Battle)
    (h : mkBattle vid arr = some b) :
    b.videoId = vid ∧
    strLe b.dancers.1.dancerKey b.dancers.2.dancerKey = true ∧
    b.dancers.1.dancerKey ≠ b.dancers.2.dancerKey := by
  rcases mkBattle_some_elim vid arr b h with ⟨k1, k2, hs, hb⟩
  have hsorted := sortStr_sorted (dedupFirst (arr.map dancerKeyOf))
  rw [hs] at hsorted
  have hle : strLe k1 k2 = true := by
    rcases List.sorted_cons.mp hsorted with ⟨h1, _⟩
    exact h1 k2 (List.mem_singleton.mpr rfl)
  have hnd : ([k1, k2] : List String).Nodup := by
    rw [← hs]
    exact ((sortStr_perm _).nodup_iff).mpr (dedupFirst_nodup _)
  have hne : k1 ≠ k2 := by simpa using hnd
  rw [hb]
  exact ⟨rfl, hle, hne⟩

/-- `mkBattle` succeeds exactly when the video resolves to two dancer keys. -/
theorem mkBattle_isSome_iff (vid : String) (arr : List Unit) :
    (mkBattle vid arr).isSome
      ↔ (dedupFirst (arr.map dancerKeyOf)).length = 2 := by
  have hlen : (sortStr (dedupFirst (arr.map dancerKeyOf))).length
      = (dedupFirst (arr.map dancerKeyOf)).length :=
    (sortStr_perm _).length_eq
  constructor
  · intro hsome
    rcases Option.isSome_iff_exists.mp hsome with ⟨b, hb⟩
    rcases mkBattle_some_elim vid arr b hb with ⟨k1, k2, heq, _⟩
    rw [← hlen, heq]
    rfl
  · intro h2
    have hl2 : (sortStr (dedupFirst (arr.map dancerKeyOf))).length = 2 :=
      hlen.trans h2
    rcases List.length_eq_two.mp hl2 with ⟨k1, k2, heq⟩
    unfold mkBattle
    rw [heq]
    rfl

theorem length_filterMap_id_add_countP_none {α : Type}
    (l : List (Option α)) :
    (l.filterMap id).length + l.countP Option.isNone = l.length := by
  induction l with
  | nil => simp
  | cons o t ih =>
      cases o with
      | none => simp [List.countP_cons, ih]; omega
      | some a => simp [List.countP_cons, ih]; omega

/-- C8: every video id resolving to a number of dancer groups other than
two produces no battle (no built battle carries it) and is tallied in the
invalid count, which equals the number of such video ids; every built
battle has its two dancer groups in strictly increasing lexicographic key
order; battles plus invalid videos account for all distinct video ids. -/
theorem buildBattles_spec (units : List Unit) :
    (∀ b ∈ (buildBattles units).1,
      strLe b.dancers.1.dancerKey b.dancers.2.dancerKey = true ∧
      b.dancers.1.dancerKey ≠ b.dancers.2.dancerKey) ∧
    (∀ vid, dancerGroupCount units vid ≠ 2 →
      ∀ b ∈ (buildBattles units).1, b.videoId ≠ vid) ∧
    (buildBattles units).2 =
      (dedupFirst ((units.filter (fun u => truthyStr u.videoId)).map
        vidKey)).countP
        (fun vid => decide (dancerGroupCount units vid ≠ 2)) ∧
    (buildBattles units).1.length + (buildBattles units).2 =
      (dedupFirst ((units.filter (fun u => truthyStr u.videoId)).map
        vidKey)).length := by
  have hmem : ∀ b ∈ (buildBattles units).1, ∃ vid,
      mkBattle vid ((units.filter (fun u => truthyStr u.videoId)).filter
        (fun u => vidKey u = vid)) = some b := by
    intro b hb
    unfold buildBattles at hb
    simp only [List.mem_filterMap, List.mem_map, id] at hb
    rcases hb with ⟨o, ⟨vid, _, hvo⟩, ho⟩
    exact ⟨vid, by rw [hvo]; exact ho⟩
  have harr : ∀ vid, (units.filter (fun u => truthyStr u.videoId)).filter
      (fun u => vidKey u = vid) = unitsOfVid units vid := fun vid => rfl
  refine ⟨?_, ?_, ?_, ?_⟩
  · intro b hb
    rcases hmem b hb with ⟨vid, hv⟩
    exact (mkBattle_some_props vid _ b hv).2
  · intro vid hcount b hb hbv
    rcases hmem b hb with ⟨vid₀, hv⟩
    have hveq : b.videoId = vid₀ := (mkBattle_some_props vid₀ _ b hv).1
    have : vid₀ = vid := by rw [← hveq, hbv]
    subst this
    have : (mkBattle vid₀ (unitsOfVid units vid₀)).isSome := by
      rw [← harr vid₀, hv]; rfl
    exact hcount ((mkBattle_isSome_iff vid₀ (unitsOfVid units vid₀)).mp this)
  · unfold buildBattles
    simp only [List.countP_map]
    rw [(sortStr_perm _).countP_eq]
    apply List.countP_congr
    intro vid _
    simp only [Function.comp_apply]
    rw [harr vid]
    rcases ho : mkBattle vid (unitsOfVid units vid) with _ | b
    · have : ¬ (mkBattle vid (unitsOfVid units vid)).isSome := by
        rw [ho]; simp
      rw [mkBattle_isSome_iff] at this
      simp [this, dancerGroupCount]
    · have : (mkBattle vid (unitsOfVid units vid)).isSome := by
        rw [ho]; rfl
      rw [mkBattle_isSome_iff] at this
      simp [ho, this, dancerGroupCount]
  · unfold buildBattles
    simp only []
    rw [length_filterMap_id_add_countP_none, List.length_map,
      (sortStr_perm _).length_eq]

/-- C9: units whose `videoId` is missing or empty are silently excluded:
dropping them changes neither the battle list nor the invalid count, and no
built battle contains such a unit in either dancer group. -/
theorem buildBattles_ignores_missing_videoId (units : List Unit) :
    buildBattles units
      = buildBattles (units.filter (fun u => truthyStr u.videoId)) ∧
    (∀ u, truthyStr u.videoId = false →
      ∀ b ∈ (buildBattles units).1,
        u ∉ b.dancers.1.units ∧ u ∉ b.dancers.2.units) := by
  constructor
  · unfold buildBattles
    rw [List.filter_filter]
    simp only [Bool.and_self]
  · intro u hu b hb
    have hmem : ∃ vid, mkBattle vid
        ((units.filter (fun w => truthyStr w.videoId)).filter
          (fun w => vidKey w = vid)) = some b := by
      unfold buildBattles at hb
      simp only [List.mem_filterMap, List.mem_map, id] at hb
      rcases hb with ⟨o, ⟨vid, _, hvo⟩, ho⟩
      exact ⟨vid, by rw [hvo]; exact ho⟩
    rcases hmem with ⟨vid, hv⟩
    rcases mkBattle_some_elim vid _ b hv with ⟨k1, k2, _, hb⟩
    rw [hb]
    constructor <;>
    · intro hin
      simp only [List.mem_filter] at hin
      have htr : truthyStr u.videoId = true := hin.1.1.2
      rw [hu] at htr
      exact Bool.false_ne_true htr

/-- A video with a single dancer group (invalid for battle construction). -/
def exUnit5 : Unit :=
  { id := "u5", dancerId := some "d5", videoId := some "v3", src := "u5" }

/-- A unit with no `videoId`. -/
def exUnit6 : Unit :=
  { id := "u6", dancerId := some "d6", videoId := none, src := "u6" }

/-- A unit with an empty `videoId`. -/
def exUnit7 : Unit :=
  { id := "u7", dancerId := some "d7", videoId := some "", src := "u7" }

/-- Witness for C8 on a concrete unit list: video `v1` has two dancer
groups and builds the one battle; video `v3` has one dancer group, builds
nothing, and is the single invalid video. -/
theorem buildBattles_spec_witness :
    dancerGroupCount [exUnit1, exUnit2, exUnit5] "v3" ≠ 2 ∧
    (∀ b ∈ (buildBattles [exUnit1, exUnit2, exUnit5]).1,
      b.videoId ≠ "v3") ∧
    (∀ b ∈ (buildBattles [exUnit1, exUnit2, exUnit5]).1,
      strLe b.dancers.1.dancerKey b.dancers.2.dancerKey = true ∧
      b.dancers.1.dancerKey ≠ b.dancers.2.dancerKey) ∧
    (buildBattles [exUnit1, exUnit2, exUnit5]).2 = 1 ∧
    (buildBattles [exUnit1, exUnit2, exUnit5]).1.length = 1 :=
  ⟨by decide,
   (buildBattles_spec [exUnit1, exUnit2, exUnit5]).2.1 "v3" (by decide),
   (buildBattles_spec [exUnit1, exUnit2, exUnit5]).1,
   by decide, by decide⟩

/-- Witness for C9 on a concrete unit list: units without a (truthy)
`videoId` neither join a battle nor change the outputs. -/
theorem buildBattles_ignores_missing_videoId_witness :
    truthyStr exUnit6.videoId = false ∧
    truthyStr exUnit7.videoId = false ∧
    (∀ b ∈ (buildBattles [exUnit1, exUnit2, exUnit6, exUnit7]).1,
      exUnit6 ∉ b.dancers.1.units ∧ exUnit6 ∉ b.dancers.2.units) ∧
    buildBattles [exUnit1, exUnit2, exUnit6, exUnit7]
      = buildBattles ([exUnit1, exUnit2, exUnit6, exUnit7].filter
          (fun u => truthyStr u.videoId)) :=
  ⟨by decide, by decide,
   fun b hb => (buildBattles_ignores_missing_videoId
     [exUnit1, exUnit2, exUnit6, exUnit7]).2 exUnit6 (by decide) b hb,
   (buildBattles_ignores_missing_videoId
     [exUnit1, exUnit2, exUnit6, exUnit7]).1⟩

/-! ### QC metrics (`qcMetrics`, source lines 803-833) -/

/-- A parsed QC progress file as imported in the Finalize tab. -/
structure QCProgressFile where
  format : String
  dataset : String
  user : User
  salt : String
  qc : List (String × WinnerDecision)
  createdAt : Int
  updatedAt : Int
deriving DecidableEq, Repr

/-- One row of the QC accuracy table. -/
structure QCMetric where
  userId : String
  labeled : Nat
  comparable : Nat
  correct : Nat
  accuracy : Option ℚ
deriving DecidableEq, Repr

/-- `comparable` counter of the metrics loop (source lines 818-821): QC
entries whose battle has a GT decision. -/
def qcComparable (gtMap : List (String × WinnerDecision))
    (qc : List (String × WinnerDecision)) : Nat :=
  qc.countP (fun p => (jsGet gtMap p.1).isSome)

/-- `correct` counter of the metrics loop (source line 822): comparable
entries whose winner key agrees with GT. -/
def qcCorrect (gtMap : List (String × WinnerDecision))
    (qc : List (String × WinnerDecision)) : Nat :=
  qc.countP (fun p =>
    match jsGet gtMap p.1 with
    | some g => decide (g.winnerDancerKey = p.2.winnerDancerKey)
    | none => false)

/-- `accuracy` field (source line 829): `correct / comparable`, or null
when nothing is comparable.  JS float division is modelled as exact
rational division. -/
def qcAccuracy (gtMap : List (String × WinnerDecision))
    (qc : List (String × WinnerDecision)) : Option ℚ :=
  if qcComparable gtMap qc > 0 then
    some ((qcCorrect gtMap qc : ℚ) / (qcComparable gtMap qc : ℚ))
  else none

/-- One entry of the `qcMetrics` table (source lines 812-831). -/
def qcMetricFor (gtMap : List (String × WinnerDecision))
    (f : QCProgressFile) : QCMetric :=
  { userId := f.user.id
    labeled := f.qc.length
    comparable := qcComparable gtMap f.qc
    correct := qcCorrect gtMap f.qc
    accuracy := qcAccuracy gtMap f.qc }

/-- The `qcMetrics` memo (source lines 803-833): one row per imported file. -/
def qcMetrics (gtMap : List (String × WinnerDecision))
    (qcFiles : List QCProgressFile) : List QCMetric :=
  qcFiles.map (qcMetricFor gtMap)

theorem jsGet_isSome_iff {α : Type} (m : List (String × α)) (k : String) :
    (jsGet m k).isSome = true ↔ k ∈ m.map Prod.fst := by
  induction m with
  | nil => simp [jsGet]
  | cons p t ih =>
      rcases p with ⟨k₀, v⟩
      by_cases hk : k₀ = k
      · subst hk
        simp [jsGet]
      · have hk2 : ¬ k = k₀ := fun h => hk h.symm
        simp only [jsGet, if_neg hk, List.map_cons, List.mem_cons]
        rw [ih]
        simp [hk2]

/-- C6: the metric for one imported QC file counts as comparable exactly
the QC-decided battle ids that also have a GT decision, as correct exactly
the comparable ones whose winner keys agree, and reports
`accuracy = correct / comparable` (null when comparable is 0); battles
absent from GT join neither count. -/
theorem qcMetricFor_spec (gtMap : List (String × WinnerDecision))
    (f : QCProgressFile) :
    (qcMetricFor gtMap f).labeled = f.qc.length ∧
    (qcMetricFor gtMap f).comparable
      = (f.qc.filter (fun p => p.1 ∈ gtMap.map Prod.fst)).length ∧
    (qcMetricFor gtMap f).correct
      = (f.qc.filter (fun p => p.1 ∈ gtMap.map Prod.fst ∧
          (jsGet gtMap p.1).map WinnerDecision.winnerDancerKey
            = some p.2.winnerDancerKey)).length ∧
    (qcMetricFor gtMap f).correct ≤ (qcMetricFor gtMap f).comparable ∧
    ((qcMetricFor gtMap f).comparable = 0 →
      (qcMetricFor gtMap f).accuracy = none) ∧
    (0 < (qcMetricFor gtMap f).comparable →
      (qcMetricFor gtMap f).accuracy
        = some (((qcMetricFor gtMap f).correct : ℚ)
            / ((qcMetricFor gtMap f).comparable : ℚ))) := by
  refine ⟨rfl, ?_, ?_, ?_, ?_, ?_⟩
  · show qcComparable gtMap f.qc = _
    unfold qcComparable
    rw [List.countP_eq_length_filter]
    congr 1
    apply List.filter_congr
    intro p _
    rcases hg : jsGet gtMap p.1 with _ | g
    · have hmem : p.1 ∉ gtMap.map Prod.fst := by
        rw [← jsGet_isSome_iff, hg]
        simp
      simp [hg, hmem]
    · have hmem : p.1 ∈ gtMap.map Prod.fst := by
        rw [← jsGet_isSome_iff, hg]
        rfl
      simp [hg, hmem]
  · show qcCorrect gtMap f.qc = _
    unfold qcCorrect
    rw [List.countP_eq_length_filter]
    congr 1
    apply List.filter_congr
    intro p _
    rcases hg : jsGet gtMap p.1 with _ | g
    · have : p.1 ∉ gtMap.map Prod.fst := by
        rw [← jsGet_isSome_iff, hg]
        simp
      simp [hg, this]
    · have : p.1 ∈ gtMap.map Prod.fst := by
        rw [← jsGet_isSome_iff, hg]
        rfl
      simp [hg, this]
  · show qcCorrect gtMap f.qc ≤ qcComparable gtMap f.qc
    apply List.countP_mono_left
    intro p _
    rcases hg : jsGet gtMap p.1 with _ | g <;> simp [hg]
  · intro h0
    show qcAccuracy gtMap f.qc = none
    unfold qcAccuracy
    have h0' : qcComparable gtMap f.qc = 0 := h0
    simp [h0']
  · intro hpos
    have hpos' : 0 < qcComparable gtMap f.qc := hpos
    show qcAccuracy gtMap f.qc = _
    unfold qcAccuracy
    rw [if_pos hpos']
    rfl

/-- The concrete accuracy scenario from the spec: GT `{v1 : X, v2 : Y}`. -/
def gtEx : List (String × WinnerDecision) := [("v1", ⟨"X", 0⟩), ("v2", ⟨"Y", 0⟩)]

/-- The concrete accuracy scenario from the spec: an annotator's QC set
`{v1 : X, v2 : Z, v3 : X}`. -/
def qcfEx : QCProgressFile :=
  { format := "qc-progress-v1"
    dataset := "ds"
    user := exUserA
    salt := "ds"
    qc := [("v1", ⟨"X", 0⟩), ("v2", ⟨"Z", 0⟩), ("v3", ⟨"X", 0⟩)]
    createdAt := 0
    updatedAt := 0 }

/-- Witness for C6, the spec's concrete instance: comparable = 2 (v3 has no
GT entry and is excluded, not counted wrong), correct = 1, accuracy = 1/2. -/
theorem qcMetricFor_spec_witness :
    (qcMetricFor gtEx qcfEx).labeled = 3 ∧
    (qcMetricFor gtEx qcfEx).comparable = 2 ∧
    (qcMetricFor gtEx qcfEx).correct = 1 ∧
    (qcMetricFor gtEx qcfEx).accuracy = some (1/2) := by
  have h := qcMetricFor_spec gtEx qcfEx
  refine ⟨by decide, by decide, by decide, ?_⟩
  have h2 := h.2.2.2.2.2 (by decide)
  rw [h2, show (qcMetricFor gtEx qcfEx).correct = 1 from by decide,
    show (qcMetricFor gtEx qcfEx).comparable = 2 from by decide]
  norm_num

/-! ### Derived label export (`exportLabelsFromGT`, source lines 869-931) -/

/-- One row of the unit-level derived label export. -/
structure LabelRow where
  video_id : String
  winner_dancer : String
  loser_dancer : String
  winner_unit_id : String
  loser_unit_id : String
  score : Int
  source : String
deriving DecidableEq, Repr

/-- One row of the battle-level summary export. -/
structure BattleRow where
  video_id : String
  winner_dancer : String
  loser_dancer : String
  source : String
deriving DecidableEq, Repr

/-- `gtDone` (source lines 737-741): battles with a GT decision. -/
def gtDone (battles : List Battle)
    (gtMap : List (String × WinnerDecision)) : Nat :=
  battles.countP (fun b => (jsGet gtMap b.videoId).isSome)

/-- `gtComplete` (source line 744): a nonempty battle list, all decided. -/
def gtComplete (battles : List Battle)
    (gtMap : List (String × WinnerDecision)) : Bool :=
  decide (0 < battles.length) && decide (gtDone battles gtMap = battles.length)

/-- `loserKey` local (source line 886). -/
def loserKeyOf (b : Battle) (gt : WinnerDecision) : String :=
  if gt.winnerDancerKey = b.dancers.1.dancerKey then b.dancers.2.dancerKey
  else b.dancers.1.dancerKey

/-- `winnerUnits` local (source line 888). -/
def winnerUnitsOf (b : Battle) (gt : WinnerDecision) : List Unit :=
  if gt.winnerDancerKey = b.dancers.1.dancerKey then b.dancers.1.units
  else b.dancers.2.units

/-- `loserUnits` local (source line 889). -/
def loserUnitsOf (b : Battle) (gt : WinnerDecision) : List Unit :=
  if loserKeyOf b gt = b.dancers.1.dancerKey then b.dancers.1.units
  else b.dancers.2.units

/-- One derived unit-level record (source lines 901-909). -/
def mkLabelRow (b : Battle) (gt : WinnerDecision) (wu lu : Unit) : LabelRow :=
  { video_id := b.videoId
    winner_dancer := gt.winnerDancerKey
    loser_dancer := loserKeyOf b gt
    winner_unit_id := wu.id
    loser_unit_id := lu.id
    score := 2
    source := "gt" }

/-- The derived rows one battle contributes (source lines 878-911): the
full cross product of winner units over loser units; nothing when the
battle has no GT decision. -/
def labelRowsForBattle (gtMap : List (String × WinnerDecision))
    (b : Battle) : List LabelRow :=
  match jsGet gtMap b.videoId with
  | none => []
  | some gt =>
      (winnerUnitsOf b gt).flatMap (fun wu =>
        (loserUnitsOf b gt).map (fun lu => mkLabelRow b gt wu lu))

/-- The battle-level summary row (source lines 891-896). -/
def battleRowForBattle (gtMap : List (String × WinnerDecision))
    (b : Battle) : Option BattleRow :=
  (jsGet gtMap b.videoId).map (fun gt =>
    { video_id := b.videoId
      winner_dancer := gt.winnerDancerKey
      loser_dancer := loserKeyOf b gt
      source := "gt" })

/-- `exportLabelsFromGT` (source lines 869-931): refuses (with the alert
message) while GT is incomplete; otherwise produces the unit-level rows
and battle-level rows. -/
def exportLabelsFromGT (battles : List Battle)
    (gtMap : List (String × WinnerDecision)) :
    Except String (List LabelRow × List BattleRow) :=
  if gtComplete battles gtMap then
    Except.ok (battles.flatMap (labelRowsForBattle gtMap),
      battles.filterMap (battleRowForBattle gtMap))
  else
    Except.error "GT is not complete yet. Please finish GT for all battles first."

theorem flatMap_map_eq_product_map {α β γ : Type} (f : α → β → γ)
    (l1 : List α) (l2 : List β) :
    l1.flatMap (fun a => l2.map (f a))
      = (l1 ×ˢ l2).map (fun p => f p.1 p.2) := by
  induction l1 with
  | nil => rfl
  | cons a t ih =>
      rw [List.flatMap_cons, List.product_cons, List.map_append, ih,
        List.map_map]
      rfl

/-- C5: with a complete GT map, the export succeeds and every battle
contributes exactly one unit-level record per (winner unit, loser unit)
pair — `|winner units| * |loser units|` records, each with score 2; with an
incomplete GT map it fails with the explanatory message and produces no
rows. -/
theorem exportLabelsFromGT_spec (battles : List Battle)
    (gtMap : List (String × WinnerDecision)) :
    (gtComplete battles gtMap = true →
      exportLabelsFromGT battles gtMap
        = Except.ok (battles.flatMap (labelRowsForBattle gtMap),
            battles.filterMap (battleRowForBattle gtMap)) ∧
      (∀ b ∈ battles, ∃ gt, jsGet gtMap b.videoId = some gt ∧
        labelRowsForBattle gtMap b
          = ((winnerUnitsOf b gt) ×ˢ (loserUnitsOf b gt)).map
              (fun p => mkLabelRow b gt p.1 p.2) ∧
        (labelRowsForBattle gtMap b).length
          = (winnerUnitsOf b gt).length * (loserUnitsOf b gt).length ∧
        (∀ r ∈ labelRowsForBattle gtMap b, r.score = 2))) ∧
    (gtComplete battles gtMap = false →
      exportLabelsFromGT battles gtMap
        = Except.error
            "GT is not complete yet. Please finish GT for all battles first.") := by
  constructor
  · intro hc
    refine ⟨by simp [exportLabelsFromGT, hc], ?_⟩
    intro b hb
    have hall : ∀ b ∈ battles, (jsGet gtMap b.videoId).isSome = true := by
      have h2 : gtDone battles gtMap = battles.length := by
        have := (Bool.and_eq_true _ _).mp hc
        simpa using this.2
      exact List.countP_eq_length.mp h2
    rcases Option.isSome_iff_exists.mp (hall b hb) with ⟨gt, hgt⟩
    have hrows : labelRowsForBattle gtMap b
        = ((winnerUnitsOf b gt) ×ˢ (loserUnitsOf b gt)).map
            (fun p => mkLabelRow b gt p.1 p.2) := by
      unfold labelRowsForBattle
      rw [hgt]
      exact flatMap_map_eq_product_map (mkLabelRow b gt) _ _
    refine ⟨gt, hgt, hrows, ?_, ?_⟩
    · rw [hrows, List.length_map, List.length_product]
    · intro r hr
      rw [hrows] at hr
      simp only [List.mem_map] at hr
      rcases hr with ⟨p, _, hrow⟩
      rw [← hrow]
      rfl
  · intro hc
    simp [exportLabelsFromGT, hc]

/-- A clip unit of dancer `d` in video `v` with id `i`. -/
def mkUnit (i d v : String) : Unit :=
  { id := i, dancerId := some d, videoId := some v, src := i }

/-- A battle with a two-unit winning group and a three-unit losing group. -/
def exBattle5 : Battle :=
  ⟨"v5", (⟨"dA", [mkUnit "a1" "dA" "v5", mkUnit "a2" "dA" "v5"]⟩,
          ⟨"dB", [mkUnit "b1" "dB" "v5", mkUnit "b2" "dB" "v5",
                  mkUnit "b3" "dB" "v5"]⟩)⟩

/-- GT map declaring `dA` the winner of `v5`. -/
def gtMap5 : List (String × WinnerDecision) := [("v5", ⟨"dA", 0⟩)]

/-- Witness for C5: the complete one-battle GT with winner group of 2 and
loser group of 3 exports exactly 6 unit-level rows; the empty GT map on the
same battles refuses with the message. -/
theorem exportLabelsFromGT_spec_witness :
    gtComplete [exBattle5] gtMap5 = true ∧
    (exportLabelsFromGT [exBattle5] gtMap5
        = Except.ok ([exBattle5].flatMap (labelRowsForBattle gtMap5),
            [exBattle5].filterMap (battleRowForBattle gtMap5)) ∧
      (∀ b ∈ [exBattle5], ∃ gt, jsGet gtMap5 b.videoId = some gt ∧
        labelRowsForBattle gtMap5 b
          = ((winnerUnitsOf b gt) ×ˢ (loserUnitsOf b gt)).map
              (fun p => mkLabelRow b gt p.1 p.2) ∧
        (labelRowsForBattle gtMap5 b).length
          = (winnerUnitsOf b gt).length * (loserUnitsOf b gt).length ∧
        (∀ r ∈ labelRowsForBattle gtMap5 b, r.score = 2))) ∧
    ([exBattle5].flatMap (labelRowsForBattle gtMap5)).length = 6 ∧
    exportLabelsFromGT [exBattle5] []
      = Except.error
          "GT is not complete yet. Please finish GT for all battles first." :=
  ⟨by decide,
   (exportLabelsFromGT_spec [exBattle5] gtMap5).1 (by decide),
   by decide,
   (exportLabelsFromGT_spec [exBattle5] []).2 (by decide)⟩

/-! ### QC file import in the Finalize tab (`importQCFiles`, source
lines 777-800)

Valid files (right format tag and dataset) are merged into the retained
list through a JS `Map` keyed by `user.id` — prior files first, newly
loaded files second, so a newly loaded file overwrites a prior file with
the same user id — and the map's values are then sorted by user id.
(`localeCompare` is modelled as code-unit order, with which it agrees on
the app's ASCII user ids.)  When no file in the batch is valid the retained
list is left untouched. -/

/-- The user ids of a file list. -/
def uids (l : List QCProgressFile) : List String :=
  l.map (fun f => f.user.id)

/-- `Map.set` keyed by `user.id`: replace in place, or append. -/
def mapSet (m : List QCProgressFile) (n : QCProgressFile) :
    List QCProgressFile :=
  if m.any (fun p => p.user.id == n.user.id) then
    m.map (fun p => if p.user.id = n.user.id then n else p)
  else m ++ [n]

/-- The files of a batch that pass validation (source lines 783-784). -/
def validQCFiles (dataset : String) (files : List QCProgressFile) :
    List QCProgressFile :=
  files.filter (fun j => j.format == "qc-progress-v1" && j.dataset == dataset)

/-- JS `sort((a, b) => a.user.id.localeCompare(b.user.id))`. -/
def sortQCFiles (l : List QCProgressFile) : List QCProgressFile :=
  List.insertionSort (fun a b => strLe a.user.id b.user.id = true) l

/-- `importQCFiles` (source lines 777-800) acting on the retained list. -/
def importQCFiles (dataset : String) (prev : List QCProgressFile)
    (files : List QCProgressFile) : List QCProgressFile :=
  let loaded := validQCFiles dataset files
  if loaded.isEmpty then prev
  else sortQCFiles ((prev ++ loaded).foldl mapSet [])

/-- The retained list after a sequence of import batches, starting from the
initial empty state. -/
def runQCImports (dataset : String)
    (batches : List (List QCProgressFile)) : List QCProgressFile :=
  batches.foldl (importQCFiles dataset) []

instance : IsTotal QCProgressFile
    (fun a b => strLe a.user.id b.user.id = true) :=
  ⟨fun a b => charListLe_total a.user.id.toList b.user.id.toList⟩

instance : IsTrans QCProgressFile
    (fun a b => strLe a.user.id b.user.id = true) :=
  ⟨fun a b c => charListLe_trans a.user.id.toList b.user.id.toList
    c.user.id.toList⟩

theorem mem_mapSet (m : List QCProgressFile) (n f : QCProgressFile)
    (h : f ∈ mapSet m n) :
    f = n ∨ (f ∈ m ∧ f.user.id ≠ n.user.id) := by
  unfold mapSet at h
  by_cases hc : m.any (fun p => p.user.id == n.user.id)
  · rw [if_pos hc] at h
    rcases List.mem_map.mp h with ⟨p, hp, hf⟩
    by_cases he : p.user.id = n.user.id
    · left; rw [← hf, if_pos he]
    · right
      rw [← hf, if_neg he]
      exact ⟨hp, he⟩
  · rw [if_neg hc] at h
    rcases List.mem_append.mp h with h1 | h1
    · right
      refine ⟨h1, fun he => ?_⟩
      exact hc (List.any_eq_true.mpr ⟨f, h1, by simp [he]⟩)
    · left; simpa using h1

theorem mem_uids_mapSet (m : List QCProgressFile) (n : QCProgressFile)
    (x : String) :
    x ∈ uids (mapSet m n) ↔ x ∈ uids m ∨ x = n.user.id := by
  unfold mapSet uids
  by_cases hc : m.any (fun p => p.user.id == n.user.id)
  · rw [if_pos hc, List.map_map]
    constructor
    · intro h
      rcases List.mem_map.mp h with ⟨p, hp, hx⟩
      simp only [Function.comp_apply] at hx
      by_cases he : p.user.id = n.user.id
      · right
        rw [← hx, if_pos he]
      · left
        refine List.mem_map.mpr ⟨p, hp, ?_⟩
        rw [← hx, if_neg he]
    · intro h
      rcases h with h | h
      · rcases List.mem_map.mp h with ⟨p, hp, hx⟩
        refine List.mem_map.mpr ⟨p, hp, ?_⟩
        simp only [Function.comp_apply]
        by_cases he : p.user.id = n.user.id
        · rw [if_pos he, ← he]
          exact hx
        · rw [if_neg he]
          exact hx
      · rcases List.any_eq_true.mp hc with ⟨p, hp, he⟩
        simp only [beq_iff_eq] at he
        refine List.mem_map.mpr ⟨p, hp, ?_⟩
        simp only [Function.comp_apply]
        rw [if_pos he, h]
  · rw [if_neg hc, List.map_append]
    simp

theorem uids_mapSet_nodup (m : List QCProgressFile) (n : QCProgressFile)
    (h : (uids m).Nodup) : (uids (mapSet m n)).Nodup := by
  unfold mapSet
  by_cases hc : m.any (fun p => p.user.id == n.user.id)
  · rw [if_pos hc]
    have heq : uids (m.map (fun p =>
        if p.user.id = n.user.id then n else p)) = uids m := by
      unfold uids
      rw [List.map_map]
      apply List.map_congr_left
      intro p _
      by_cases he : p.user.id = n.user.id
      · simp only [Function.comp_apply, if_pos he]
        exact he.symm
      · simp only [Function.comp_apply, if_neg he]
    rw [show uids (m.map (fun p => if p.user.id = n.user.id then n else p))
      = uids m from heq] at *
    exact heq ▸ h
  · rw [if_neg hc]
    unfold uids
    rw [List.map_append]
    refine List.Nodup.append h (List.nodup_singleton _) ?_
    intro x hx hx1
    simp only [List.map_cons, List.map_nil, List.mem_singleton] at hx1
    subst hx1
    rcases List.mem_map.mp hx with ⟨p, hp, he⟩
    exact hc (List.any_eq_true.mpr ⟨p, hp, by simp [he]⟩)

theorem mem_foldl_mapSet :
    ∀ (l : List QCProgressFile) (m : List QCProgressFile)
      (f : QCProgressFile), f ∈ l.foldl mapSet m →
      f ∈ l ∨ (f ∈ m ∧ f.user.id ∉ uids l) := by
  intro l
  induction l with
  | nil => intro m f h; right; exact ⟨h, by simp [uids]⟩
  | cons n t ih =>
      intro m f h
      rw [List.foldl_cons] at h
      rcases ih (mapSet m n) f h with h1 | ⟨h1, h2⟩
      · left; exact List.mem_cons_of_mem n h1
      · rcases mem_mapSet m n f h1 with h3 | ⟨h3, h4⟩
        · left; exact h3 ▸ List.mem_cons_self n t
        · right
          refine ⟨h3, fun hin => ?_⟩
          simp only [uids, List.map_cons, List.mem_cons] at hin
          rcases hin with h5 | h5
          · exact h4 h5
          · exact h2 (by simpa [uids] using h5)

theorem uids_foldl_mapSet_nodup :
    ∀ (l : List QCProgressFile) (m : List QCProgressFile),
      (uids m).Nodup → (uids (l.foldl mapSet m)).Nodup := by
  intro l
  induction l with
  | nil => intro m h; exact h
  | cons n t ih =>
      intro m h
      rw [List.foldl_cons]
      exact ih (mapSet m n) (uids_mapSet_nodup m n h)

theorem foldl_mapSet_new_overrides (prev loaded : List QCProgressFile)
    (f : QCProgressFile) (hf : f ∈ (prev ++ loaded).foldl mapSet [])
    (hid : f.user.id ∈ uids loaded) : f ∈ loaded := by
  rw [List.foldl_append] at hf
  rcases mem_foldl_mapSet loaded (prev.foldl mapSet []) f hf with h | ⟨_, h2⟩
  · exact h
  · exact absurd hid h2

/-- C10: after any sequence of QC-file import batches the retained list
has pairwise distinct user ids and is sorted ascending by user id; and in
any single import, a retained file whose user id occurs among the batch's
valid files is itself one of the batch's valid files — so a newly imported
file replaces any previously retained file with the same user id. -/
theorem importQCFiles_spec :
    (∀ (dataset : String) (batches : List (List QCProgressFile)),
      (uids (runQCImports dataset batches)).Nodup ∧
      List.Sorted (fun a b => strLe a.user.id b.user.id = true)
        (runQCImports dataset batches)) ∧
    (∀ (dataset : String) (prev files : List QCProgressFile)
      (f : QCProgressFile), f ∈ importQCFiles dataset prev files →
      f.user.id ∈ uids (validQCFiles dataset files) →
      f ∈ validQCFiles dataset files) := by
  have hstep : ∀ (dataset : String) (prev files : List QCProgressFile),
      (uids prev).Nodup ∧
        List.Sorted (fun a b => strLe a.user.id b.user.id = true) prev →
      (uids (importQCFiles dataset prev files)).Nodup ∧
        List.Sorted (fun a b => strLe a.user.id b.user.id = true)
          (importQCFiles dataset prev files) := by
    intro dataset prev files h
    unfold importQCFiles
    by_cases he : (validQCFiles dataset files).isEmpty
    · simpa [he] using h
    · rw [if_neg (by simp [he])]
      constructor
      · have hperm : List.Perm
            (uids (sortQCFiles ((prev ++ validQCFiles dataset files).foldl
              mapSet [])))
            (uids ((prev ++ validQCFiles dataset files).foldl mapSet [])) :=
          (List.perm_insertionSort _ _).map _
        exact hperm.nodup_iff.mpr
          (uids_foldl_mapSet_nodup _ [] (by simp [uids]))
      · exact List.sorted_insertionSort _ _
  constructor
  · intro dataset batches
    unfold runQCImports
    induction batches using List.reverseRecOn with
    | nil => exact ⟨by simp [uids], List.sorted_nil⟩
    | append_singleton t files ih =>
        rw [List.foldl_append]
        exact hstep dataset _ files ih
  · intro dataset prev files f hf hid
    unfold importQCFiles at hf
    by_cases he : (validQCFiles dataset files).isEmpty
    · rw [if_pos (by simp [he])] at hf
      have : validQCFiles dataset files = [] := List.isEmpty_iff.mp he
      rw [this] at hid
      simp [uids] at hid
    · rw [if_neg (by simp [he])] at hf
      have hf2 : f ∈ (prev ++ validQCFiles dataset files).foldl mapSet [] :=
        ((List.perm_insertionSort _ _).mem_iff).mp hf
      exact foldl_mapSet_new_overrides prev _ f hf2 hid

/-- A minimal valid QC file for user `id`, tagged by `t` to tell copies
apart. -/
def mkQCFile (id : String) (t : Int) : QCProgressFile :=
  { format := "qc-progress-v1"
    dataset := "ds"
    user := ⟨id, id, Role.annotator, 0⟩
    salt := "ds"
    qc := []
    createdAt := t
    updatedAt := t }

/-- Witness for C10: importing `B`,`A` then a fresh `A` file retains one
file per user id, sorted `A` before `B`, with the newer `A` file replacing
the older one. -/
theorem importQCFiles_spec_witness :
    runQCImports "ds" [[mkQCFile "B" 1, mkQCFile "A" 2], [mkQCFile "A" 3]]
      = [mkQCFile "A" 3, mkQCFile "B" 1] ∧
    (uids (runQCImports "ds"
      [[mkQCFile "B" 1, mkQCFile "A" 2], [mkQCFile "A" 3]])).Nodup ∧
    List.Sorted (fun a b => strLe a.user.id b.user.id = true)
      (runQCImports "ds"
        [[mkQCFile "B" 1, mkQCFile "A" 2], [mkQCFile "A" 3]]) ∧
    mkQCFile "A" 3 ∈ validQCFiles "ds" [mkQCFile "A" 3] :=
  ⟨by decide,
   (importQCFiles_spec.1 "ds"
     [[mkQCFile "B" 1, mkQCFile "A" 2], [mkQCFile "A" 3]]).1,
   (importQCFiles_spec.1 "ds"
     [[mkQCFile "B" 1, mkQCFile "A" 2], [mkQCFile "A" 3]]).2,
   importQCFiles_spec.2 "ds" [mkQCFile "A" 2, mkQCFile "B" 1]
     [mkQCFile "A" 3] (mkQCFile "A" 3) (by decide) (by decide)⟩

end WDB
